import Mathlib

/-!
Shallow embedding of `doris::ObjectPool` (src/be/src/common/object_pool.h).

The pool stores a vector of `Element { void* obj; DeleteFn delete_fn; }`.
`add` captures the lambda `delete reinterpret_cast<T*>(obj)` (scalar delete),
`add_array` captures `delete[] reinterpret_cast<T*>(obj)` (array delete),
`clear` iterates the element vector in reverse, invoking each stored
`delete_fn` on its pointer, then empties the vector; `acquire_data` splices the
donor's vector onto the end of the receiver's and empties the donor;
`size` returns the vector's length.

Pointers are modelled as an explicit null plus abstract addresses; the two
captured deletion lambdas are modelled by the inductive `DeleteFn`, whose
`run` function yields the deletion action the lambda performs on a pointer.
`clear` returns, besides the new state, the ordered list of elements whose
`delete_fn` it invoked, so that release traces can be reasoned about.
Lock acquisition is modelled by per-method lists of the `std::lock_guard`
statements each method body executes.
-/

namespace Doris

/-- A type-erased pointer value (`void*`): either the null pointer or some
address, abstracted by a natural number. -/
inductive Ptr where
  | null : Ptr
  | addr (n : Nat) : Ptr
deriving DecidableEq, Repr

/-- The deletion action a stored deletion function performs when invoked on a
pointer: a scalar `delete` of that pointer or an array `delete[]` of it. -/
inductive Deletion where
  | scalarDelete (p : Ptr) : Deletion
  | arrayDelete (p : Ptr) : Deletion
deriving DecidableEq, Repr

/-- The pointer a deletion action is applied to. -/
def Deletion.target : Deletion → Ptr
  | .scalarDelete p => p
  | .arrayDelete p => p

/-- The deallocation effect of a deletion action in the C++ allocation model:
`delete`/`delete[]` on a null pointer deallocates nothing (a defined no-op);
on a non-null pointer it deallocates that pointer. -/
def Deletion.freed (d : Deletion) : Option Ptr :=
  if d.target = Ptr.null then none else some d.target

/-- The generic deletion function pointer stored in an `Element`
(`using DeleteFn = void (*)(void*)`).  Exactly two function values are ever
stored: the lambda captured by `add`, performing scalar `delete`, and the
lambda captured by `add_array`, performing `delete[]`. -/
inductive DeleteFn where
  | deleteScalar : DeleteFn
  | deleteArray : DeleteFn
deriving DecidableEq, Repr

/-- Invoking a stored deletion function on a pointer
(`_object.delete_fn(_object.obj)`): the scalar lambda performs a scalar
delete of the pointer, the array lambda an array delete. -/
def DeleteFn.run : DeleteFn → Ptr → Deletion
  | .deleteScalar, p => Deletion.scalarDelete p
  | .deleteArray, p => Deletion.arrayDelete p

/-- `struct Element { void* obj; DeleteFn delete_fn; }`: for each object, a
pointer to the object and the function that deletes it. -/
structure Element where
  obj : Ptr
  delete_fn : DeleteFn
deriving DecidableEq, Repr

/-- The deletion action performed when an element's stored deletion function
is invoked on its own pointer. -/
def Element.invoke (e : Element) : Deletion :=
  e.delete_fn.run e.obj

/-- The pool state: `std::vector<Element> _objects` (the mutex `_lock` has no
state visible to these operations; the lock statements each method executes
are modelled separately below). -/
structure ObjectPool where
  _objects : List Element
deriving DecidableEq, Repr

/-- `ObjectPool() = default`: a newly constructed pool owns no elements. -/
def ObjectPool.empty : ObjectPool := ⟨[]⟩

/-- Result of `add`/`add_array`: the updated pool state and the returned
pointer. -/
structure AddResult where
  st : ObjectPool
  ret : Ptr
deriving DecidableEq, Repr

/-- `T* add(T* t)`: under the lock, appends `Element {t, scalar-delete lambda}`
to `_objects` and returns `t`. -/
def ObjectPool.add (p : ObjectPool) (t : Ptr) : AddResult :=
  ⟨⟨p._objects ++ [⟨t, DeleteFn.deleteScalar⟩]⟩, t⟩

/-- `T* add_array(T* t)`: under the lock, appends
`Element {t, array-delete lambda}` to `_objects` and returns `t`. -/
def ObjectPool.add_array (p : ObjectPool) (t : Ptr) : AddResult :=
  ⟨⟨p._objects ++ [⟨t, DeleteFn.deleteArray⟩]⟩, t⟩

/-- Result of `clear`: the updated pool state and the ordered list of elements
whose `delete_fn` was invoked (in invocation order). -/
structure ClearResult where
  st : ObjectPool
  releases : List Element
deriving DecidableEq, Repr

/-- `void clear()`: under the lock, iterates `_objects` through
`std::ranges::reverse_view`, invoking `_object.delete_fn(_object.obj)` for
each element, then calls `_objects.clear()`. -/
def ObjectPool.clear (p : ObjectPool) : ClearResult :=
  ⟨⟨[]⟩, p._objects.reverse⟩

/-- Result of `acquire_data`: the updated receiver state, the updated donor
state, and the list of elements whose `delete_fn` was invoked (none: the body
contains no deletion call). -/
structure AcquireResult where
  dst : ObjectPool
  src : ObjectPool
  releases : List Element
deriving DecidableEq, Repr

/-- `void acquire_data(ObjectPool* src)`: inserts `src->_objects` at the end
of `_objects`, then calls `src->_objects.clear()`; no deletion function is
invoked. -/
def ObjectPool.acquire_data (p : ObjectPool) (src : ObjectPool) : AcquireResult :=
  ⟨⟨p._objects ++ src._objects⟩, ⟨[]⟩, []⟩

/-- `uint64_t size()`: under the lock, returns `_objects.size()`. -/
def ObjectPool.size (p : ObjectPool) : Nat :=
  p._objects.length

/-- Which pool's mutex a `std::lock_guard` statement refers to: the receiver
(`this->_lock`) or, in `acquire_data`, the donor (`src->_lock`). -/
inductive LockRef where
  | receiver : LockRef
  | donor : LockRef
deriving DecidableEq, Repr

/-- The method bodies of the pool, as lock-trace subjects. -/
inductive Method where
  | addM : Method
  | add_arrayM : Method
  | clearM : Method
  | acquire_dataM : Method
  | sizeM : Method
deriving DecidableEq, Repr

/-- The `std::lock_guard` statements executed by each method body, in order:
`add`, `add_array`, `clear` and `size` each begin with
`std::lock_guard<std::mutex> l(_lock)` on the receiver's mutex;
`acquire_data`'s body contains no lock statement at all. -/
def locksAcquired : Method → List LockRef
  | .addM => [LockRef.receiver]
  | .add_arrayM => [LockRef.receiver]
  | .clearM => [LockRef.receiver]
  | .acquire_dataM => []
  | .sizeM => [LockRef.receiver]

/-- One accept operation performed on a pool: `add t` or `add_array t`. -/
inductive AcceptOp where
  | obj (t : Ptr) : AcceptOp
  | arr (t : Ptr) : AcceptOp
deriving DecidableEq, Repr

/-- The element that an accept operation appends to the pool. -/
def AcceptOp.elem : AcceptOp → Element
  | .obj t => ⟨t, DeleteFn.deleteScalar⟩
  | .arr t => ⟨t, DeleteFn.deleteArray⟩

/-- Run a sequence of accept operations against a pool state. -/
def ObjectPool.runAccepts (p : ObjectPool) : List AcceptOp → ObjectPool
  | [] => p
  | AcceptOp.obj t :: ops => ((p.add t).st).runAccepts ops
  | AcceptOp.arr t :: ops => ((p.add_array t).st).runAccepts ops

/-- One operation in a single pool's lifetime: an accept (scalar or array) or
a `clear()`. -/
inductive PoolOp where
  | acceptObj (t : Ptr) : PoolOp
  | acceptArr (t : Ptr) : PoolOp
  | clearOp : PoolOp
deriving DecidableEq, Repr

/-- Run a sequence of operations against a pool state, accumulating the list
of elements whose `delete_fn` was invoked, in invocation order. -/
def ObjectPool.runOpsTrace (p : ObjectPool) : List PoolOp → ObjectPool × List Element
  | [] => (p, [])
  | PoolOp.acceptObj t :: ops => ((p.add t).st).runOpsTrace ops
  | PoolOp.acceptArr t :: ops => ((p.add_array t).st).runOpsTrace ops
  | PoolOp.clearOp :: ops =>
      ((((p.clear).st).runOpsTrace ops).1,
        (p.clear).releases ++ (((p.clear).st).runOpsTrace ops).2)

/-- The elements accepted over a sequence of operations, in acceptance
order. -/
def acceptedElems : List PoolOp → List Element
  | [] => []
  | PoolOp.acceptObj t :: ops => Element.mk t DeleteFn.deleteScalar :: acceptedElems ops
  | PoolOp.acceptArr t :: ops => Element.mk t DeleteFn.deleteArray :: acceptedElems ops
  | PoolOp.clearOp :: ops => acceptedElems ops

/-- One step of the spec-side size account: a clear resets the count of
not-yet-cleared entries to zero, an accept increments it. -/
def sizeStep (n : Nat) : PoolOp → Nat
  | PoolOp.clearOp => 0
  | _ => n + 1

/-- Modelled from the spec: "`size()` equals the number of
accepted-but-not-yet-cleared entries at every point" — the count of accept
operations performed since the most recent `clear` (or since construction,
when no clear has occurred). -/
def acceptedNotCleared (ops : List PoolOp) : Nat :=
  ops.foldl sizeStep 0

/-- Running a sequence of accepts appends exactly the corresponding elements,
in order, after the existing ones. -/
theorem runAccepts_objects (ops : List AcceptOp) : ∀ p : ObjectPool,
    (p.runAccepts ops)._objects = p._objects ++ ops.map AcceptOp.elem := by
  induction ops with
  | nil =>
      intro p
      simp [ObjectPool.runAccepts]
  | cons op ops ih =>
      intro p
      cases op with
      | obj t =>
          simp [ObjectPool.runAccepts, ObjectPool.add, AcceptOp.elem, ih]
      | arr t =>
          simp [ObjectPool.runAccepts, ObjectPool.add_array, AcceptOp.elem, ih]

/-- Over any operation sequence, the elements released so far together with
the elements still owned are, up to order, exactly the initially owned
elements plus the elements accepted along the way. -/
theorem runOpsTrace_perm (ops : List PoolOp) : ∀ p : ObjectPool,
    ((p.runOpsTrace ops).2 ++ ((p.runOpsTrace ops).1)._objects).Perm
      (p._objects ++ acceptedElems ops) := by
  induction ops with
  | nil =>
      intro p
      simp [ObjectPool.runOpsTrace, acceptedElems]
  | cons op ops ih =>
      intro p
      cases op with
      | acceptObj t =>
          have h := ih ⟨p._objects ++ [⟨t, DeleteFn.deleteScalar⟩]⟩
          simp only [ObjectPool.runOpsTrace, ObjectPool.add, acceptedElems] at h ⊢
          exact h.trans (by simp)
      | acceptArr t =>
          have h := ih ⟨p._objects ++ [⟨t, DeleteFn.deleteArray⟩]⟩
          simp only [ObjectPool.runOpsTrace, ObjectPool.add_array, acceptedElems] at h ⊢
          exact h.trans (by simp)
      | clearOp =>
          have h := ih ⟨[]⟩
          simp only [ObjectPool.runOpsTrace, ObjectPool.clear, acceptedElems,
            List.nil_append] at h ⊢
          rw [List.append_assoc]
          exact (List.reverse_perm _).append h

/-- A trailing clear leaves the pool empty, whatever happened before. -/
theorem runOpsTrace_clear_last (ops : List PoolOp) : ∀ p : ObjectPool,
    ((p.runOpsTrace (ops ++ [PoolOp.clearOp])).1)._objects = [] := by
  induction ops with
  | nil =>
      intro p
      simp [ObjectPool.runOpsTrace, ObjectPool.clear]
  | cons op ops ih =>
      intro p
      cases op <;> simp [ObjectPool.runOpsTrace, ih]

/-- Accepted elements distribute over concatenation of operation
sequences. -/
theorem acceptedElems_append (ops₁ ops₂ : List PoolOp) :
    acceptedElems (ops₁ ++ ops₂) = acceptedElems ops₁ ++ acceptedElems ops₂ := by
  induction ops₁ with
  | nil => simp [acceptedElems]
  | cons op ops ih => cases op <;> simp [acceptedElems, ih]

/-- The owned-element count after running an operation sequence is the fold of
the spec-side size step over the sequence. -/
theorem runOpsTrace_size (ops : List PoolOp) : ∀ p : ObjectPool,
    (((p.runOpsTrace ops).1))._objects.length
      = ops.foldl sizeStep p._objects.length := by
  induction ops with
  | nil =>
      intro p
      simp [ObjectPool.runOpsTrace]
  | cons op ops ih =>
      intro p
      cases op with
      | acceptObj t =>
          have h := ih ⟨p._objects ++ [⟨t, DeleteFn.deleteScalar⟩]⟩
          simp [ObjectPool.runOpsTrace, ObjectPool.add, sizeStep] at h ⊢
          exact h
      | acceptArr t =>
          have h := ih ⟨p._objects ++ [⟨t, DeleteFn.deleteArray⟩]⟩
          simp [ObjectPool.runOpsTrace, ObjectPool.add_array, sizeStep] at h ⊢
          exact h
      | clearOp =>
          have h := ih ⟨[]⟩
          simp [ObjectPool.runOpsTrace, ObjectPool.clear, sizeStep] at h ⊢
          exact h

/-- C1: over any lifetime of a pool (any sequence of accepts and clears
starting from a fresh pool, ended by the destructor's clear), each accepted
element's deletion function is invoked exactly as many times as the element
was accepted — once per acceptance; at every intermediate point, invocations
so far plus still-owned occurrences account for every acceptance exactly
once; and a clear immediately following a clear invokes no deletion
function. -/
theorem C1_single_release (ops : List PoolOp) (e : Element) :
    ((ObjectPool.empty.runOpsTrace (ops ++ [PoolOp.clearOp])).2).count e
      = (acceptedElems ops).count e ∧
    ((ObjectPool.empty.runOpsTrace ops).2).count e
        + (((ObjectPool.empty.runOpsTrace ops).1)._objects).count e
      = (acceptedElems ops).count e ∧
    ((((ObjectPool.empty.runOpsTrace ops).1).clear).st.clear).releases = [] := by
  refine ⟨?_, ?_, ?_⟩
  · have hperm := runOpsTrace_perm (ops ++ [PoolOp.clearOp]) ObjectPool.empty
    have hempty := runOpsTrace_clear_last ops ObjectPool.empty
    rw [hempty, List.append_nil, acceptedElems_append] at hperm
    simp only [acceptedElems, List.append_nil, ObjectPool.empty,
      List.nil_append] at hperm
    exact hperm.count_eq e
  · have hperm := runOpsTrace_perm ops ObjectPool.empty
    have hcount := hperm.count_eq e
    simpa [List.count_append, ObjectPool.empty] using hcount
  · simp [ObjectPool.clear]

/-- C2: for objects accepted in order O1, ..., On into a fresh pool, `clear`
invokes the deletion functions in exact reverse acceptance order On, ..., O1
and then empties the element sequence. -/
theorem C2_reverse_order (ops : List AcceptOp) :
    ((ObjectPool.empty.runAccepts ops).clear).releases
      = (ops.map AcceptOp.elem).reverse ∧
    ((ObjectPool.empty.runAccepts ops).clear).st._objects = [] := by
  constructor
  · simp [ObjectPool.clear, runAccepts_objects, ObjectPool.empty]
  · simp [ObjectPool.clear]

/-- C3: `A.acquire_data(B)` appends B's elements after A's existing ones with
relative order preserved, leaves B empty, invokes no deletion function, and a
later clear of A releases the transferred elements (in reverse) before A's
pre-existing elements (in reverse). -/
theorem C3_transfer (A B : ObjectPool) :
    (A.acquire_data B).dst._objects = A._objects ++ B._objects ∧
    (A.acquire_data B).src._objects = [] ∧
    (A.acquire_data B).releases = [] ∧
    (((A.acquire_data B).dst).clear).releases
      = B._objects.reverse ++ A._objects.reverse ∧
    ((A.acquire_data B).dst).size = A.size + B.size ∧
    ((A.acquire_data B).src).size = 0 := by
  refine ⟨rfl, rfl, rfl, ?_, ?_, rfl⟩
  · simp [ObjectPool.acquire_data, ObjectPool.clear]
  · simp [ObjectPool.acquire_data, ObjectPool.size]

/-- C4: the deletion function captured at acceptance time matches the
acceptance operation: an element registered via `add` is released by a scalar
delete of its pointer, one registered via `add_array` by an array delete. -/
theorem C4_mode_fidelity (p : ObjectPool) (t : Ptr) :
    ((((p.add t).st.clear).releases.head?).map Element.invoke)
      = some (Deletion.scalarDelete t) ∧
    ((((p.add_array t).st.clear).releases.head?).map Element.invoke)
      = some (Deletion.arrayDelete t) := by
  constructor
  · simp [ObjectPool.add, ObjectPool.clear, Element.invoke, DeleteFn.run]
  · simp [ObjectPool.add_array, ObjectPool.clear, Element.invoke, DeleteFn.run]

/-- C5 (counterexample): the claim that the receiving pool's lock is held
during `acquire_data` is false — the body of `acquire_data` executes no
`lock_guard` statement on the receiver's mutex. -/
theorem C5_counterexample :
    ¬ (LockRef.receiver ∈ locksAcquired Method.acquire_dataM) := by
  decide

/-- C5 (amended): during `acquire_data`, no lock is acquired at all — neither
the receiving pool's lock nor the donor pool's — while each of the other four
operations acquires exactly the receiving pool's lock. -/
theorem C5_no_lock_in_acquire_data :
    locksAcquired Method.acquire_dataM = [] ∧
    locksAcquired Method.addM = [LockRef.receiver] ∧
    locksAcquired Method.add_arrayM = [LockRef.receiver] ∧
    locksAcquired Method.clearM = [LockRef.receiver] ∧
    locksAcquired Method.sizeM = [LockRef.receiver] := by
  decide

/-- C6: `size()` equals the number of accepted-but-not-yet-cleared entries at
every point of a pool's lifetime; it is 0 for a fresh pool and immediately
after `clear()`, each accept increments it by one, and `acquire_data` adds
the donor's size to the receiver's and zeroes the donor's. -/
theorem C6_size_accounting (ops : List PoolOp) (p q : ObjectPool) (t : Ptr) :
    ((ObjectPool.empty.runOpsTrace ops).1).size = acceptedNotCleared ops ∧
    ObjectPool.empty.size = 0 ∧
    ((p.clear).st).size = 0 ∧
    ((p.add t).st).size = p.size + 1 ∧
    ((p.add_array t).st).size = p.size + 1 ∧
    ((p.acquire_data q).dst).size = p.size + q.size ∧
    ((p.acquire_data q).src).size = 0 := by
  refine ⟨?_, rfl, rfl, ?_, ?_, ?_, rfl⟩
  · have h := runOpsTrace_size ops ObjectPool.empty
    simpa [ObjectPool.size, acceptedNotCleared, ObjectPool.empty] using h
  · simp [ObjectPool.add, ObjectPool.size]
  · simp [ObjectPool.add_array, ObjectPool.size]
  · simp [ObjectPool.acquire_data, ObjectPool.size]

/-- C7: accepting a null pointer succeeds through either accept operation
(the null pointer is stored and returned, with no error path), and a later
clear does invoke the stored deletion function on it, but that invocation's
deallocation effect is a defined no-op: it frees nothing. -/
theorem C7_null_tolerance (p : ObjectPool) :
    (p.add Ptr.null).ret = Ptr.null ∧
    (p.add_array Ptr.null).ret = Ptr.null ∧
    ((((p.add Ptr.null).st.clear).releases.head?).map
        (fun e => (Element.invoke e).freed)) = some none ∧
    ((((p.add_array Ptr.null).st.clear).releases.head?).map
        (fun e => (Element.invoke e).freed)) = some none := by
  refine ⟨rfl, rfl, ?_, ?_⟩
  · simp [ObjectPool.add, ObjectPool.clear, Element.invoke, DeleteFn.run,
      Deletion.freed, Deletion.target]
  · simp [ObjectPool.add_array, ObjectPool.clear, Element.invoke, DeleteFn.run,
      Deletion.freed, Deletion.target]

/-- C8: clearing an empty pool — newly constructed or already cleared —
invokes zero deletion functions and leaves the pool empty: clear is
idempotent. -/
theorem C8_idempotent_clear (p : ObjectPool) :
    (ObjectPool.empty.clear).releases = [] ∧
    (ObjectPool.empty.clear).st = ObjectPool.empty ∧
    (((p.clear).st).clear).releases = [] ∧
    (((p.clear).st).clear).st = (p.clear).st := by
  exact ⟨rfl, rfl, rfl, rfl⟩

/-- C9: `add` and `add_array` return exactly the pointer passed in,
unchanged. -/
theorem C9_returns_same_pointer (p : ObjectPool) (t : Ptr) :
    (p.add t).ret = t ∧ (p.add_array t).ret = t := by
  exact ⟨rfl, rfl⟩

/-- C10: for any pool state and any pointer (null, or one already present,
included), one accept appends exactly one element: the element sequence
becomes the old sequence plus one new element at the end, the size grows by
exactly one, and every previously stored element keeps its position, pointer
and deletion function (no deduplication, no null filtering). -/
theorem C10_frame_effect (p : ObjectPool) (t : Ptr) :
    (p.add t).st._objects = p._objects ++ [Element.mk t DeleteFn.deleteScalar] ∧
    (p.add_array t).st._objects
      = p._objects ++ [Element.mk t DeleteFn.deleteArray] ∧
    ((p.add t).st).size = p.size + 1 ∧
    ((p.add_array t).st).size = p.size + 1 ∧
    ((p.add t).st._objects).take p._objects.length = p._objects ∧
    ((p.add_array t).st._objects).take p._objects.length = p._objects := by
  refine ⟨rfl, rfl, ?_, ?_, ?_, ?_⟩
  · simp [ObjectPool.add, ObjectPool.size]
  · simp [ObjectPool.add_array, ObjectPool.size]
  · simp [ObjectPool.add, List.take_left]
  · simp [ObjectPool.add_array, List.take_left]

end Doris
